import Mathlib

/-!
# wpgen: the sketch painting engine

A shallow embedding of `sketch/sketch.go` (package `sketch`) and of the flag
defaults of `main.go`.

Modelling conventions.

* `float64` values are exact rationals (`ℚ`): every statement below is a
  statement over exact arithmetic.  `float64(n)` of an `int` is the cast `ℤ → ℚ`.
  A float division by zero (a source image of width or height zero) has no exact
  counterpart; the model then uses `ℚ`'s `x / 0 = 0`, and no theorem depends on it.
* Go's `int` is the 64-bit signed integer: integer `+`, `-`, `*` on values that come
  from the configuration wrap around (`wrap64`).
* `int(f)` of a float truncates toward zero when the truncated value fits a 64-bit `int`;
  outside that range Go leaves the result to the implementation, and `goInt` then gives
  the value of the amd64 conversion, `-2^63`.  Theorems about `goInt` carry the range as
  a hypothesis, so none of them rests on that choice.
* The process-wide random generator is replaced by the values it hands out: every
  call of `Update` receives a `Draws` record.  `rand.Intn n` panics for `n ≤ 0`;
  a panic is the result `none`.
* The `gg` drawing context is the list of the calls made on it, oldest first.
-/

namespace Wpgen

/-- The fields of `UserParams`, in the order of the source. -/
structure UserParams where
  StrokeRatio : ℚ
  DestWidth : ℤ
  DestHeight : ℤ
  InitialAlpha : ℚ
  StrokeReduction : ℚ
  AlphaIncrease : ℚ
  StrokeInversionThreshold : ℚ
  StrokeJitter : ℤ
  MinEdgeCount : ℤ
  MaxEdgeCount : ℤ
  RotationJitter : ℚ
  Shape : String
  Fill : Bool
  Stroke : Bool

/-- A call made on the `gg.Context` held in the field `dc`. -/
inductive DrawCall where
  | SetColorBlack
  | DrawRectangle (x y w h : ℚ)
  | DrawCircle (x y r : ℚ)
  | DrawRoundedRectangle (x y w h r : ℚ)
  | DrawRegularPolygon (n : ℤ) (x y r rotation : ℚ)
  | SetRGBA255 (r g b a : ℤ)
  | FillPreserve
  | Stroke
  deriving DecidableEq

/-- An `image.Image` as far as the engine reads it: `Bounds().Max` and, for `At(x, y)`,
the red, green and blue results of `RGBA()` (16-bit channels, each in `0 .. 65535`). -/
structure Image where
  maxX : ℤ
  maxY : ℤ
  At : ℤ → ℤ → ℕ × ℕ × ℕ

/-- The struct `Sketch`; `UserParams` is embedded, so `InitialAlpha` is the field that
`Update` uses as the current alpha. -/
structure Sketch extends UserParams where
  source : Image
  dc : List DrawCall
  sourceWidth : ℤ
  sourceHeight : ℤ
  strokeSize : ℚ
  initialStrokeSize : ℚ

/-- The random values one call of `Update` consumes, in the order it asks for them:
two `rand.Float64()` results (each in `[0, 1)`), the raw values behind the two
`rand.Intn` calls made through `randRange`, the raw value behind the `rand.Intn` of the
edge count, and the `rand.Float64()` of the rotation.  A shape that does not ask for one
of the last two ignores it. -/
structure Draws where
  fx : ℚ
  fy : ℚ
  jx : ℕ
  jy : ℕ
  edge : ℕ
  rot : ℚ

/-- Two's-complement wrap-around of a 64-bit signed `int`. -/
def wrap64 (x : ℤ) : ℤ := (x + 2 ^ 63) % 2 ^ 64 - 2 ^ 63

/-- The conversion `int(f)` of a float to the 64-bit `int`: the fraction is discarded
(truncation toward zero).  When the truncated value does not fit 64 bits the Go specification
leaves the result to the implementation; the value here is the one amd64 produces, `-2^63`. -/
def goInt (f : ℚ) : ℤ :=
  let t := Int.tdiv f.num (f.den : ℤ)
  if -2 ^ 63 ≤ t ∧ t < 2 ^ 63 then t else -2 ^ 63

/-- The function `rand.Intn`: it panics (`none`) when `n ≤ 0` and otherwise returns an integer of
`[0, n)`; `raw` selects which one, and every integer of `[0, n)` is selected by some `raw`. -/
def Intn (n : ℤ) (raw : ℕ) : Option ℤ :=
  if n ≤ 0 then none else some ((raw : ℤ) % n)

/-- The function `randRange`: `-max + rand.Intn(2*max)`. -/
def randRange (max : ℤ) (raw : ℕ) : Option ℤ :=
  (Intn (wrap64 (2 * max)) raw).map fun d => wrap64 (wrap64 (-max) + d)

/-- The function `rgb255`: each 16-bit channel divided by 257. -/
def rgb255 (c : ℕ × ℕ × ℕ) : ℤ × ℤ × ℤ :=
  (((c.1 / 257 : ℕ) : ℤ), ((c.2.1 / 257 : ℕ) : ℤ), ((c.2.2 / 257 : ℕ) : ℤ))

/-- Lower-case form of one rune as `unicode.ToLower` gives it, exact on the runes whose
lower-case form is an ASCII letter: `A .. Z`, U+0130 (to `i`) and U+212A (to `k`).  Every other
rune is left as it is; `unicode.ToLower` maps such a rune to a rune outside ASCII or to itself,
which makes no difference to a comparison with an ASCII word. -/
def toLowerRune (c : Char) : Char :=
  if 65 ≤ c.toNat ∧ c.toNat ≤ 90 then Char.ofNat (c.toNat + 32)
  else if c.toNat = 0x130 then Char.ofNat 105
  else if c.toNat = 0x212A then Char.ofNat 107
  else c

/-- The function `strings.ToLower`. -/
def ToLower (s : String) : String := String.mk (s.data.map toLowerRune)

/-- The function `NewSketch`. -/
def NewSketch (source : Image) (userParams : UserParams) : Sketch :=
  let initialStrokeSize := userParams.StrokeRatio * (userParams.DestWidth : ℚ)
  { toUserParams := userParams
    sourceWidth := source.maxX
    sourceHeight := source.maxY
    initialStrokeSize := initialStrokeSize
    strokeSize := initialStrokeSize
    source := source
    dc := [DrawCall.SetColorBlack,
           DrawCall.DrawRectangle 0 0 (userParams.DestWidth : ℚ) (userParams.DestHeight : ℚ),
           DrawCall.FillPreserve] }

/-- Step 3 of `Update`: the `switch` on the lower-cased shape name; the draw call it makes, or
`none` when `rand.Intn` panics in the default branch. -/
def drawShape (s : Sketch) (d : Draws) (destX destY : ℚ) : Option DrawCall :=
  let shape := ToLower s.Shape
  if shape = "circle" then
    some (DrawCall.DrawCircle destX destY s.strokeSize)
  else if shape = "roundedsquare" then
    some (DrawCall.DrawRoundedRectangle destX destY s.strokeSize s.strokeSize (s.strokeSize / 12))
  else if shape = "square" then
    some (DrawCall.DrawRegularPolygon 4 destX destY s.strokeSize (d.rot * s.RotationJitter))
  else if shape = "hexagon" then
    some (DrawCall.DrawRegularPolygon 6 destX destY s.strokeSize (d.rot * s.RotationJitter))
  else
    (Intn (wrap64 (wrap64 (s.MaxEdgeCount - s.MinEdgeCount) + 1)) d.edge).map fun k =>
      DrawCall.DrawRegularPolygon (wrap64 (s.MinEdgeCount + k)) destX destY s.strokeSize
        (d.rot * s.RotationJitter)

/-- Step 4 of `Update`: the calls of the block guarded by `if !s.Fill`. -/
def fillStep (s : Sketch) (r g b : ℤ) : List DrawCall :=
  if !s.Fill then
    [DrawCall.SetRGBA255 r g b (goInt s.InitialAlpha), DrawCall.FillPreserve]
  else []

/-- Step 5 of `Update` up to, not including, the final `s.dc.Stroke()`. -/
def strokeStep (s : Sketch) (r g b : ℤ) : List DrawCall :=
  if !s.Stroke then
    if s.strokeSize ≤ s.StrokeInversionThreshold * s.initialStrokeSize then
      if (r + g + b) / 3 < 128 then
        [DrawCall.SetRGBA255 255 255 255 (goInt (s.InitialAlpha * 2))]
      else
        [DrawCall.SetRGBA255 0 0 0 (goInt (s.InitialAlpha * 2))]
    else []
  else
    [DrawCall.SetRGBA255 0 0 0 0]

/-- The method `Update`: one paint-and-decay cycle; `none` when a `rand.Intn` panics. -/
def Update (s : Sketch) (d : Draws) : Option Sketch := do
  -- Step 1
  let rndX := d.fx * (s.sourceWidth : ℚ)
  let rndY := d.fy * (s.sourceHeight : ℚ)
  let rgb := rgb255 (s.source.At (goInt rndX) (goInt rndY))
  -- Step 2
  let jx ← randRange s.StrokeJitter d.jx
  let destX := rndX * (s.DestWidth : ℚ) / (s.sourceWidth : ℚ) + (jx : ℚ)
  let jy ← randRange s.StrokeJitter d.jy
  let destY := rndY * (s.DestHeight : ℚ) / (s.sourceHeight : ℚ) + (jy : ℚ)
  -- Step 3
  let shape ← drawShape s d destX destY
  -- Steps 4 and 5
  let dc := s.dc ++ [shape] ++ fillStep s rgb.1 rgb.2.1 rgb.2.2
    ++ strokeStep s rgb.1 rgb.2.1 rgb.2.2 ++ [DrawCall.Stroke]
  -- Step 6
  some { s with
    dc := dc
    strokeSize := s.strokeSize - s.StrokeReduction * s.strokeSize
    InitialAlpha := s.InitialAlpha + s.AlphaIncrease }

/-- The colour `r, g, b` that Step 1 of `Update` samples with the draws `d`. -/
def sampled (s : Sketch) (d : Draws) : ℤ × ℤ × ℤ :=
  rgb255 (s.source.At (goInt (d.fx * (s.sourceWidth : ℚ))) (goInt (d.fy * (s.sourceHeight : ℚ))))

/-- The calls that were added to the drawing context between the states `s` and `t`. -/
def newCalls (s t : Sketch) : List DrawCall := t.dc.drop s.dc.length

/-- The `switch` of `Update` takes its `default` branch. -/
def polygonBranch (p : UserParams) : Prop :=
  ToLower p.Shape ≠ "circle" ∧ ToLower p.Shape ≠ "roundedsquare" ∧
    ToLower p.Shape ≠ "square" ∧ ToLower p.Shape ≠ "hexagon"

instance (p : UserParams) : Decidable (polygonBranch p) := by
  unfold polygonBranch; infer_instance

/-- Every argument that a call of `Update` hands to `rand.Intn` is strictly positive: `2*max`
inside `randRange`, and `MaxEdgeCount-MinEdgeCount+1` when the default branch is taken. -/
def IntnArgsPositive (p : UserParams) : Prop :=
  0 < wrap64 (2 * p.StrokeJitter) ∧
    (polygonBranch p → 0 < wrap64 (wrap64 (p.MaxEdgeCount - p.MinEdgeCount) + 1))

instance (p : UserParams) : Decidable (IntnArgsPositive p) := by
  unfold IntnArgsPositive; infer_instance

/-- The value is one that a Go `int` can hold. -/
def isInt64 (x : ℤ) : Prop := -2 ^ 63 ≤ x ∧ x < 2 ^ 63

instance (x : ℤ) : Decidable (isInt64 x) := by
  unfold isInt64; infer_instance

/-- The loop of `main`: `n` calls of `Update`, call `k` (counted from 0) consuming `draws k`. -/
def runUpdates (s : Sketch) (draws : ℕ → Draws) : ℕ → Option Sketch
  | 0 => some s
  | n + 1 => (runUpdates s draws n).bind fun t => Update t (draws n)

/-- The flag defaults of `main`. -/
def defaultParams : UserParams :=
  { DestHeight := 1080
    DestWidth := 1920
    StrokeRatio := 3 / 4
    InitialAlpha := 1 / 10
    StrokeReduction := 2 / 1000
    AlphaIncrease := 6 / 100
    StrokeInversionThreshold := 5 / 100
    StrokeJitter := 200
    MinEdgeCount := 3
    MaxEdgeCount := 8
    RotationJitter := 1 / 2
    Shape := "polygon"
    Fill := false
    Stroke := false }

/-- The flag default of `-cyclecount`. -/
def totalCycleCount : ℕ := 5000

/-- A source image of one colour, `w` wide and `h` high. -/
def plainImage (w h : ℤ) (c : ℕ × ℕ × ℕ) : Image :=
  { maxX := w, maxY := h, At := fun _ _ => c }

/-- Draws that are all zero. -/
def zeroDraws : Draws := { fx := 0, fy := 0, jx := 0, jy := 0, edge := 0, rot := 0 }

end Wpgen


/-! ## Helper lemmas -/

namespace Wpgen

theorem Intn_eq_some {n : ℤ} {raw : ℕ} {v : ℤ} :
    Intn n raw = some v ↔ 0 < n ∧ v = (raw : ℤ) % n := by
  unfold Intn
  split_ifs with h
  · simp; intro h0; omega
  · simp; constructor
    · intro hv; exact ⟨by omega, hv.symm⟩
    · intro hv; exact hv.2.symm

theorem Intn_eq_none {n : ℤ} {raw : ℕ} : Intn n raw = none ↔ n ≤ 0 := by
  unfold Intn
  split_ifs with h <;> simp [h]

theorem randRange_eq_some {max : ℤ} {raw : ℕ} {v : ℤ} :
    randRange max raw = some v ↔
      0 < wrap64 (2 * max) ∧ v = wrap64 (wrap64 (-max) + (raw : ℤ) % wrap64 (2 * max)) := by
  unfold randRange
  simp only [Option.map_eq_some', Intn_eq_some]
  constructor
  · rintro ⟨a, ⟨h0, rfl⟩, rfl⟩; exact ⟨h0, rfl⟩
  · rintro ⟨h0, rfl⟩; exact ⟨_, ⟨h0, rfl⟩, rfl⟩

theorem randRange_eq_none {max : ℤ} {raw : ℕ} :
    randRange max raw = none ↔ wrap64 (2 * max) ≤ 0 := by
  unfold randRange
  simp [Intn_eq_none]

theorem drawShape_isSome (s : Sketch) (d : Draws) (x y : ℚ) :
    (drawShape s d x y).isSome ↔
      (polygonBranch s.toUserParams →
        0 < wrap64 (wrap64 (s.MaxEdgeCount - s.MinEdgeCount) + 1)) := by
  unfold drawShape polygonBranch
  simp only
  split_ifs with h1 h2 h3 h4
  · simp [h1]
  · simp [h2]
  · simp [h3]
  · simp [h4]
  · simp only [Option.isSome_map', h1, h2, h3, h4, ne_eq, not_false_eq_true, and_self,
      true_implies]
    rw [Option.isSome_iff_exists]
    constructor
    · rintro ⟨a, ha⟩; exact (Intn_eq_some.1 ha).1
    · intro h; exact ⟨_, Intn_eq_some.2 ⟨h, rfl⟩⟩

/-- What a returning call of `Update` is made of. -/
theorem Update_eq_some {s t : Sketch} {d : Draws} (h : Update s d = some t) :
    ∃ jx jy shape,
      randRange s.StrokeJitter d.jx = some jx ∧ randRange s.StrokeJitter d.jy = some jy ∧
      drawShape s d
        (d.fx * (s.sourceWidth : ℚ) * (s.DestWidth : ℚ) / (s.sourceWidth : ℚ) + (jx : ℚ))
        (d.fy * (s.sourceHeight : ℚ) * (s.DestHeight : ℚ) / (s.sourceHeight : ℚ) + (jy : ℚ))
        = some shape ∧
      t = { s with
        dc := s.dc ++ [shape] ++ fillStep s (sampled s d).1 (sampled s d).2.1 (sampled s d).2.2
          ++ strokeStep s (sampled s d).1 (sampled s d).2.1 (sampled s d).2.2 ++ [DrawCall.Stroke]
        strokeSize := s.strokeSize - s.StrokeReduction * s.strokeSize
        InitialAlpha := s.InitialAlpha + s.AlphaIncrease } := by
  unfold Update at h
  simp only [Option.bind_eq_bind, Option.bind_eq_some, Option.some.injEq] at h
  obtain ⟨jx, hjx, jy, hjy, shape, hshape, ht⟩ := h
  exact ⟨jx, jy, shape, hjx, hjy, hshape, ht.symm⟩

theorem Update_isSome (s : Sketch) (d : Draws) :
    (Update s d).isSome ↔ IntnArgsPositive s.toUserParams := by
  unfold IntnArgsPositive
  constructor
  · intro h
    obtain ⟨t, ht⟩ := Option.isSome_iff_exists.1 h
    obtain ⟨jx, jy, shape, hjx, -, hshape, -⟩ := Update_eq_some ht
    have hs := (drawShape_isSome s d _ _).1 (Option.isSome_iff_exists.2 ⟨shape, hshape⟩)
    exact ⟨(randRange_eq_some.1 hjx).1, hs⟩
  · rintro ⟨hj, hp⟩
    obtain ⟨jx, hjx⟩ : ∃ jx, randRange s.StrokeJitter d.jx = some jx :=
      ⟨_, randRange_eq_some.2 ⟨hj, rfl⟩⟩
    obtain ⟨jy, hjy⟩ : ∃ jy, randRange s.StrokeJitter d.jy = some jy :=
      ⟨_, randRange_eq_some.2 ⟨hj, rfl⟩⟩
    obtain ⟨shape, hshape⟩ := Option.isSome_iff_exists.1
      ((drawShape_isSome s d
        (d.fx * (s.sourceWidth : ℚ) * (s.DestWidth : ℚ) / (s.sourceWidth : ℚ) + (jx : ℚ))
        (d.fy * (s.sourceHeight : ℚ) * (s.DestHeight : ℚ) / (s.sourceHeight : ℚ) + (jy : ℚ))).2
        hp)
    unfold Update
    simp only [Option.bind_eq_bind, hjx, hjy, hshape, Option.some_bind, Option.isSome_some]

/-- The fields a returning call of `Update` changes, and those it leaves alone. -/
theorem Update_fields {s t : Sketch} {d : Draws} (h : Update s d = some t) :
    t.strokeSize = s.strokeSize * (1 - s.StrokeReduction) ∧
    t.InitialAlpha = s.InitialAlpha + s.AlphaIncrease ∧
    t.initialStrokeSize = s.initialStrokeSize ∧
    t.StrokeReduction = s.StrokeReduction ∧
    t.AlphaIncrease = s.AlphaIncrease ∧
    t.StrokeInversionThreshold = s.StrokeInversionThreshold ∧
    t.StrokeJitter = s.StrokeJitter ∧
    t.MinEdgeCount = s.MinEdgeCount ∧
    t.MaxEdgeCount = s.MaxEdgeCount ∧
    t.Shape = s.Shape ∧
    t.Fill = s.Fill ∧
    t.Stroke = s.Stroke ∧
    t.source = s.source := by
  obtain ⟨jx, jy, shape, -, -, -, rfl⟩ := Update_eq_some h
  refine ⟨?_, rfl, rfl, rfl, rfl, rfl, rfl, rfl, rfl, rfl, rfl, rfl, rfl⟩
  show s.strokeSize - s.StrokeReduction * s.strokeSize = s.strokeSize * (1 - s.StrokeReduction)
  ring

/-- The calls a returning call of `Update` adds to the drawing context. -/
theorem Update_newCalls {s t : Sketch} {d : Draws} (h : Update s d = some t) :
    ∃ shape x y, drawShape s d x y = some shape ∧
      newCalls s t = [shape] ++ fillStep s (sampled s d).1 (sampled s d).2.1 (sampled s d).2.2
        ++ strokeStep s (sampled s d).1 (sampled s d).2.1 (sampled s d).2.2
        ++ [DrawCall.Stroke] := by
  obtain ⟨jx, jy, shape, -, -, hshape, rfl⟩ := Update_eq_some h
  refine ⟨shape, _, _, hshape, ?_⟩
  simp [newCalls, List.append_assoc]

/-- The engine state `n` calls of `Update` after `NewSketch`, when the parameters let
`Update` return, as far as it does not depend on the drawing context. -/
theorem runUpdates_fields (s : Sketch) (draws : ℕ → Draws) (n : ℕ) (t : Sketch)
    (h : runUpdates s draws n = some t) :
    t.strokeSize = s.strokeSize * (1 - s.StrokeReduction) ^ n ∧
    t.InitialAlpha = s.InitialAlpha + (n : ℚ) * s.AlphaIncrease ∧
    t.initialStrokeSize = s.initialStrokeSize ∧
    t.StrokeReduction = s.StrokeReduction ∧
    t.AlphaIncrease = s.AlphaIncrease ∧
    t.StrokeInversionThreshold = s.StrokeInversionThreshold ∧
    t.StrokeJitter = s.StrokeJitter ∧
    t.MinEdgeCount = s.MinEdgeCount ∧
    t.MaxEdgeCount = s.MaxEdgeCount ∧
    t.Shape = s.Shape ∧
    t.Fill = s.Fill ∧
    t.Stroke = s.Stroke ∧
    t.source = s.source := by
  induction n generalizing t with
  | zero =>
    simp only [runUpdates, Option.some.injEq] at h
    subst h
    simp
  | succ n ih =>
    simp only [runUpdates, Option.bind_eq_some] at h
    obtain ⟨u, hu, hut⟩ := h
    obtain ⟨a1, a2, a3, a4, a5, a6, a7, a8, a9, a10, a11, a12, a13⟩ := ih u hu
    obtain ⟨b1, b2, b3, b4, b5, b6, b7, b8, b9, b10, b11, b12, b13⟩ := Update_fields hut
    refine ⟨?_, ?_, b3.trans a3, b4.trans a4, b5.trans a5, b6.trans a6, b7.trans a7,
      b8.trans a8, b9.trans a9, b10.trans a10, b11.trans a11, b12.trans a12, b13.trans a13⟩
    · rw [b1, a1, a4]; ring
    · rw [b2, a2, a5]; push_cast; ring

/-- The remaining fields, which no call of `Update` changes. -/
theorem Update_frame {s t : Sketch} {d : Draws} (h : Update s d = some t) :
    t.StrokeRatio = s.StrokeRatio ∧ t.DestWidth = s.DestWidth ∧ t.DestHeight = s.DestHeight ∧
    t.RotationJitter = s.RotationJitter ∧ t.sourceWidth = s.sourceWidth ∧
    t.sourceHeight = s.sourceHeight := by
  obtain ⟨jx, jy, shape, -, -, -, rfl⟩ := Update_eq_some h
  exact ⟨rfl, rfl, rfl, rfl, rfl, rfl⟩

theorem runUpdates_frame (s : Sketch) (draws : ℕ → Draws) (n : ℕ) (t : Sketch)
    (h : runUpdates s draws n = some t) :
    t.StrokeRatio = s.StrokeRatio ∧ t.DestWidth = s.DestWidth ∧ t.DestHeight = s.DestHeight ∧
    t.RotationJitter = s.RotationJitter ∧ t.sourceWidth = s.sourceWidth ∧
    t.sourceHeight = s.sourceHeight := by
  induction n generalizing t with
  | zero =>
    simp only [runUpdates, Option.some.injEq] at h
    subst h
    simp
  | succ n ih =>
    simp only [runUpdates, Option.bind_eq_some] at h
    obtain ⟨u, hu, hut⟩ := h
    obtain ⟨a1, a2, a3, a4, a5, a6⟩ := ih u hu
    obtain ⟨b1, b2, b3, b4, b5, b6⟩ := Update_frame hut
    exact ⟨b1.trans a1, b2.trans a2, b3.trans a3, b4.trans a4, b5.trans a5, b6.trans a6⟩

theorem polygonBranch_congr {p q : UserParams} (h : p.Shape = q.Shape) :
    polygonBranch p ↔ polygonBranch q := by
  unfold polygonBranch; rw [h]

theorem IntnArgsPositive_congr {p q : UserParams} (hj : p.StrokeJitter = q.StrokeJitter)
    (hmin : p.MinEdgeCount = q.MinEdgeCount) (hmax : p.MaxEdgeCount = q.MaxEdgeCount)
    (hs : p.Shape = q.Shape) : IntnArgsPositive p ↔ IntnArgsPositive q := by
  unfold IntnArgsPositive; rw [hj, hmin, hmax, polygonBranch_congr hs]

/-- The run of `n` calls returns exactly when `n = 0` or no `rand.Intn` argument is non-positive. -/
theorem runUpdates_isSome (s : Sketch) (draws : ℕ → Draws) (n : ℕ) :
    (runUpdates s draws n).isSome ↔ n = 0 ∨ IntnArgsPositive s.toUserParams := by
  induction n with
  | zero => simp [runUpdates]
  | succ n ih =>
    simp only [Nat.succ_ne_zero, false_or, AddLeftCancelMonoid.add_eq_zero, one_ne_zero,
      and_false]
    constructor
    · intro h
      obtain ⟨t, ht⟩ := Option.isSome_iff_exists.1 h
      simp only [runUpdates, Option.bind_eq_some] at ht
      obtain ⟨u, hu, hut⟩ := ht
      obtain ⟨-, -, -, -, -, -, a7, a8, a9, a10, -⟩ := runUpdates_fields s draws n u hu
      have := (Update_isSome u (draws n)).1 (by rw [hut]; rfl)
      exact (IntnArgsPositive_congr a7 a8 a9 a10).1 this
    · intro hp
      obtain ⟨u, hu⟩ := Option.isSome_iff_exists.1 (ih.2 (Or.inr hp))
      obtain ⟨-, -, -, -, -, -, a7, a8, a9, a10, -⟩ := runUpdates_fields s draws n u hu
      have := (Update_isSome u (draws n)).2 ((IntnArgsPositive_congr a7 a8 a9 a10).2 hp)
      obtain ⟨t, ht⟩ := Option.isSome_iff_exists.1 this
      rw [Option.isSome_iff_exists]
      exact ⟨t, by simp only [runUpdates, hu, Option.some_bind, ht]⟩

theorem runUpdates_map (s : Sketch) (draws : ℕ → Draws) (n : ℕ) {α : Type} (f : Sketch → α)
    (v : α) (hv : ∀ t, runUpdates s draws n = some t → f t = v) :
    (runUpdates s draws n).map f = if n = 0 ∨ IntnArgsPositive s.toUserParams then some v else none := by
  have h := runUpdates_isSome s draws n
  split_ifs with hc
  · obtain ⟨t, ht⟩ := Option.isSome_iff_exists.1 (h.2 hc)
    rw [ht, Option.map_some', hv t ht]
  · cases hr : runUpdates s draws n with
    | none => rfl
    | some t => exact absurd (h.1 (by rw [hr]; rfl)) hc

theorem strokeSize_pos_of_run (s : Sketch) (draws : ℕ → Draws) (n : ℕ) (t : Sketch)
    (h : runUpdates s draws n = some t) (h0 : 0 < s.strokeSize)
    (h1 : s.StrokeReduction < 1) : 0 < t.strokeSize := by
  rw [(runUpdates_fields s draws n t h).1]
  exact mul_pos h0 (pow_pos (by linarith) n)

theorem runUpdates_succ {s t : Sketch} {draws : ℕ → Draws} {n : ℕ}
    (h : runUpdates s draws (n + 1) = some t) :
    ∃ u, runUpdates s draws n = some u ∧ Update u (draws n) = some t := by
  simpa only [runUpdates, Option.bind_eq_some] using h

theorem goInt_of_nonneg {f : ℚ} (h : 0 ≤ f) (hlt : f < 2 ^ 63) : goInt f = ⌊f⌋ := by
  have ht : Int.tdiv f.num (f.den : ℤ) = ⌊f⌋ := by
    rw [Rat.floor_def, Int.tdiv_eq_ediv (Rat.num_nonneg.2 h) (Int.ofNat_nonneg _)]
  have h0 : 0 ≤ ⌊f⌋ := Int.floor_nonneg.2 h
  have h1 : ⌊f⌋ < 2 ^ 63 := by
    rw [Int.floor_lt]
    push_cast
    exact hlt
  unfold goInt
  simp only [ht]
  rw [if_pos ⟨by omega, h1⟩]

theorem drawShape_polygon (s : Sketch) (d : Draws) (x y : ℚ)
    (hb : polygonBranch s.toUserParams) :
    drawShape s d x y =
      (Intn (wrap64 (wrap64 (s.MaxEdgeCount - s.MinEdgeCount) + 1)) d.edge).map fun k =>
        DrawCall.DrawRegularPolygon (wrap64 (s.MinEdgeCount + k)) x y s.strokeSize
          (d.rot * s.RotationJitter) := by
  obtain ⟨h1, h2, h3, h4⟩ := hb
  unfold drawShape
  simp only [h1, h2, h3, h4, if_false]

theorem wrap64_of_isInt64 {x : ℤ} (h : isInt64 x) : wrap64 x = x := by
  unfold isInt64 at h
  unfold wrap64
  omega

theorem drawShape_ne_FillPreserve {s : Sketch} {d : Draws} {x y : ℚ} {c : DrawCall}
    (h : drawShape s d x y = some c) : c ≠ DrawCall.FillPreserve := by
  unfold drawShape at h
  simp only at h
  split_ifs at h
  · cases h; simp
  · cases h; simp
  · cases h; simp
  · cases h; simp
  · simp only [Option.map_eq_some'] at h
    obtain ⟨a, -, rfl⟩ := h
    simp

/-- The fill step of a returning call of `Update` with `Fill = false`: the second and third
call it adds. -/
theorem Update_fill_calls {s t : Sketch} {d : Draws} (h : Update s d = some t)
    (hf : s.Fill = false) :
    (newCalls s t)[1]? = some (DrawCall.SetRGBA255 (sampled s d).1 (sampled s d).2.1
        (sampled s d).2.2 (goInt s.InitialAlpha)) ∧
      (newCalls s t)[2]? = some DrawCall.FillPreserve := by
  obtain ⟨shape, x, y, -, hc⟩ := Update_newCalls h
  rw [hc]
  simp [fillStep, hf]

/-- A returning call of `Update` calls `FillPreserve` exactly when `Fill` is false. -/
theorem Update_FillPreserve_mem {s t : Sketch} {d : Draws} (h : Update s d = some t) :
    DrawCall.FillPreserve ∈ newCalls s t ↔ s.Fill = false := by
  obtain ⟨shape, x, y, hshape, hc⟩ := Update_newCalls h
  have hne := drawShape_ne_FillPreserve hshape
  rw [hc]
  cases hf : s.Fill
  · simp [fillStep, hf]
  · have hfill : ∀ r g b, fillStep s r g b = [] := by
      intro r g b
      simp [fillStep, hf]
    have hstroke : ∀ r g b, DrawCall.FillPreserve ∉ strokeStep s r g b := by
      intro r g b
      unfold strokeStep
      split_ifs <;> simp
    simp [hfill, hstroke, Ne.symm hne]

theorem sampled_plainImage (p : UserParams) (w h : ℤ) (c : ℕ × ℕ × ℕ) (d : Draws) :
    sampled (NewSketch (plainImage w h c) p) d = rgb255 c := rfl

theorem sampled_of_source {s : Sketch} {w h : ℤ} {c : ℕ × ℕ × ℕ}
    (hs : s.source = plainImage w h c) (d : Draws) : sampled s d = rgb255 c := by
  unfold sampled
  rw [hs]
  rfl

/-- With the default stroke reduction `0.002` the stroke size is at or below the default
threshold `0.05` of its initial value from call 1497 on, and not before. -/
theorem default_decay_threshold (k : ℕ) :
    ((1 : ℚ) - 2 / 1000) ^ k ≤ 5 / 100 ↔ 1497 ≤ k := by
  have hq0 : (0 : ℚ) ≤ 1 - 2 / 1000 := by norm_num
  have hq1 : (1 : ℚ) - 2 / 1000 ≤ 1 := by norm_num
  have hlo : ((1 : ℚ) - 2 / 1000) ^ 1497 ≤ 5 / 100 := by norm_num
  have hhi : (5 / 100 : ℚ) < (1 - 2 / 1000) ^ 1496 := by norm_num
  constructor
  · intro h
    by_contra hk
    have hle : k ≤ 1496 := by omega
    have := pow_le_pow_of_le_one hq0 hq1 hle
    linarith
  · intro hk
    exact le_trans (pow_le_pow_of_le_one hq0 hq1 hk) hlo

/-- The state that call `k` of the default run starts from. -/
theorem default_run_state (source : Image) (draws : ℕ → Draws) (k : ℕ) :
    ∃ s t, runUpdates (NewSketch source defaultParams) draws k = some s ∧
      Update s (draws k) = some t ∧
      s.InitialAlpha = 1 / 10 + 6 / 100 * (k : ℚ) ∧
      s.Fill = false ∧ s.Stroke = false ∧ s.source = source ∧
      (s.strokeSize ≤ s.StrokeInversionThreshold * s.initialStrokeSize ↔ 1497 ≤ k) := by
  obtain ⟨t, ht⟩ := Option.isSome_iff_exists.1
    ((runUpdates_isSome (NewSketch source defaultParams) draws (k + 1)).2
      (Or.inr (show IntnArgsPositive defaultParams by decide)))
  obtain ⟨s, hs, hst⟩ := runUpdates_succ ht
  obtain ⟨a1, a2, a3, -, -, a6, -, -, -, -, a11, a12, a13⟩ := runUpdates_fields _ draws k s hs
  refine ⟨s, t, hs, hst, ?_, a11, a12, a13, ?_⟩
  · rw [a2]
    show (1 / 10 : ℚ) + (k : ℚ) * (6 / 100) = 1 / 10 + 6 / 100 * (k : ℚ)
    ring
  · rw [a1, a3, a6, ← default_decay_threshold k]
    show (3 / 4 : ℚ) * ((1920 : ℤ) : ℚ) * (1 - 2 / 1000) ^ k ≤
      5 / 100 * (3 / 4 * ((1920 : ℤ) : ℚ)) ↔ _
    have h1440 : (0 : ℚ) < 3 / 4 * ((1920 : ℤ) : ℚ) := by norm_num
    constructor
    · intro h
      have h2 : (3 / 4 : ℚ) * ((1920 : ℤ) : ℚ) * (1 - 2 / 1000) ^ k ≤
          3 / 4 * ((1920 : ℤ) : ℚ) * (5 / 100) := by linarith
      exact le_of_mul_le_mul_left h2 h1440
    · intro h
      have := mul_le_mul_of_nonneg_left h h1440.le
      linarith

/-- The opacities of call `k` of the default run, over exact arithmetic. -/
theorem default_opacity_bounds (k : ℕ) (hk : k < 5000) :
    (0 ≤ goInt (1 / 10 + 6 / 100 * (k : ℚ)) ∧ goInt (1 / 10 + 6 / 100 * (k : ℚ)) ≤ 300) ∧
    (goInt (1 / 10 + 6 / 100 * (k : ℚ)) ≤ 255 ↔ k ≤ 4264) ∧
    (0 ≤ goInt ((1 / 10 + 6 / 100 * (k : ℚ)) * 2) ∧
      goInt ((1 / 10 + 6 / 100 * (k : ℚ)) * 2) ≤ 600) ∧
    (goInt ((1 / 10 + 6 / 100 * (k : ℚ)) * 2) ≤ 255 ↔ k ≤ 2131) := by
  have hk0 : (0 : ℚ) ≤ (k : ℚ) := Nat.cast_nonneg k
  have hk1 : (k : ℚ) ≤ 4999 := by
    have : k ≤ 4999 := by omega
    exact_mod_cast this
  have hα : (0 : ℚ) ≤ 1 / 10 + 6 / 100 * (k : ℚ) := by linarith
  have hα2 : (0 : ℚ) ≤ (1 / 10 + 6 / 100 * (k : ℚ)) * 2 := by linarith
  have hb : (0 : ℚ) ≤ 2 ^ 63 - 1200 := by norm_num
  rw [goInt_of_nonneg hα (by linarith), goInt_of_nonneg hα2 (by linarith)]
  refine ⟨⟨Int.floor_nonneg.2 hα, ?_⟩, ?_, ⟨Int.floor_nonneg.2 hα2, ?_⟩, ?_⟩
  · have : ⌊(1 / 10 + 6 / 100 * (k : ℚ))⌋ < 301 := by
      rw [Int.floor_lt]; push_cast; linarith
    omega
  · rw [← Int.lt_add_one_iff, Int.floor_lt]
    push_cast
    constructor
    · intro h
      have h2 : (k : ℚ) < 4265 := by linarith
      have h3 : k < 4265 := by exact_mod_cast h2
      omega
    · intro h
      have h2 : k < 4265 := by omega
      have h3 : (k : ℚ) < 4265 := by exact_mod_cast h2
      linarith
  · have : ⌊(1 / 10 + 6 / 100 * (k : ℚ)) * 2⌋ < 601 := by
      rw [Int.floor_lt]; push_cast; linarith
    omega
  · rw [← Int.lt_add_one_iff, Int.floor_lt]
    push_cast
    constructor
    · intro h
      have h2 : (k : ℚ) < 2132 := by linarith
      have h3 : k < 2132 := by exact_mod_cast h2
      omega
    · intro h
      have h2 : k ≤ 2131 := h
      have h3 : (k : ℚ) ≤ 2131 := by exact_mod_cast h2
      linarith

end Wpgen

/-! ## The claims -/

namespace Wpgen

/-- C1: for every configuration, every source image, every `n` and every sequence of random
draws, after `NewSketch` and `n` calls of `Update` the field `initialStrokeSize` is
`StrokeRatio * DestWidth` and the field `strokeSize` is
`initialStrokeSize * (1 - StrokeReduction) ^ n`; that state exists exactly when `n = 0` or no
argument of `rand.Intn` is non-positive (otherwise the first call panics). -/
theorem strokeSize_geometric (source : Image) (p : UserParams) (draws : ℕ → Draws) (n : ℕ) :
    (runUpdates (NewSketch source p) draws n).map (fun t => (t.initialStrokeSize, t.strokeSize)) =
      if n = 0 ∨ IntnArgsPositive p then
        some (p.StrokeRatio * (p.DestWidth : ℚ),
          p.StrokeRatio * (p.DestWidth : ℚ) * (1 - p.StrokeReduction) ^ n)
      else none := by
  refine runUpdates_map (NewSketch source p) draws n _ _ ?_
  intro t ht
  obtain ⟨h1, -, h3, -⟩ := runUpdates_fields _ draws n t ht
  rw [h1, h3]
  rfl

/-- C2: with `DestWidth > 0`, `StrokeRatio > 0` and `0 ≤ StrokeReduction < 1`, for every `n`
and every sequence of draws: the `strokeSize` after `n` calls of `Update` is strictly positive,
the `strokeSize` after `n + 1` calls is at most the one after `n` calls, and the states after
`n` and `n + 1` calls exist whenever no argument of `rand.Intn` is non-positive. -/
theorem strokeSize_nonincreasing_pos (source : Image) (p : UserParams) (draws : ℕ → Draws)
    (n : ℕ) (hW : 0 < p.DestWidth) (hR : 0 < p.StrokeRatio) (h0 : 0 ≤ p.StrokeReduction)
    (h1 : p.StrokeReduction < 1) :
    (∀ s, runUpdates (NewSketch source p) draws n = some s →
      0 < s.strokeSize ∧
      ∀ t, runUpdates (NewSketch source p) draws (n + 1) = some t →
        t.strokeSize ≤ s.strokeSize) ∧
    (IntnArgsPositive p →
      ∃ s t, runUpdates (NewSketch source p) draws n = some s ∧
        runUpdates (NewSketch source p) draws (n + 1) = some t) := by
  have hinit : 0 < (NewSketch source p).strokeSize := by
    show 0 < p.StrokeRatio * (p.DestWidth : ℚ)
    exact mul_pos hR (by exact_mod_cast hW)
  constructor
  · intro s hs
    have hpos := strokeSize_pos_of_run _ draws n s hs hinit h1
    refine ⟨hpos, ?_⟩
    intro t ht
    obtain ⟨u, hu, hut⟩ := runUpdates_succ ht
    rw [hs] at hu
    obtain rfl : s = u := Option.some.inj hu
    rw [(Update_fields hut).1, (runUpdates_fields _ draws n s hs).2.2.2.1]
    have : s.strokeSize * (1 - p.StrokeReduction) ≤ s.strokeSize * 1 :=
      mul_le_mul_of_nonneg_left (by linarith) hpos.le
    simpa using this
  · intro hp
    obtain ⟨t, ht⟩ := Option.isSome_iff_exists.1
      ((runUpdates_isSome (NewSketch source p) draws (n + 1)).2 (Or.inr hp))
    obtain ⟨u, hu, -⟩ := runUpdates_succ ht
    exact ⟨u, t, hu, ht⟩

/-- C3: for every configuration, every source image, every `n` and every sequence of random
draws, after `NewSketch` and `n` calls of `Update` the current alpha (the embedded field
`InitialAlpha`) is the configured initial alpha plus `n * AlphaIncrease`; that state exists
exactly when `n = 0` or no argument of `rand.Intn` is non-positive. -/
theorem alpha_linear (source : Image) (p : UserParams) (draws : ℕ → Draws) (n : ℕ) :
    (runUpdates (NewSketch source p) draws n).map (fun t => t.InitialAlpha) =
      if n = 0 ∨ IntnArgsPositive p then some (p.InitialAlpha + (n : ℚ) * p.AlphaIncrease)
      else none := by
  refine runUpdates_map (NewSketch source p) draws n _ _ ?_
  intro t ht
  rw [(runUpdates_fields _ draws n t ht).2.1]
  rfl

/-- C4: with `DestWidth > 0`, `StrokeRatio > 0` and `0 ≤ StrokeReduction < 1`: when the
inversion condition `strokeSize ≤ StrokeInversionThreshold * initialStrokeSize` holds in the
state that call `k` of `Update` starts from, it holds in the state every later call `m ≥ k`
starts from, and the threshold and `initialStrokeSize` are the same in both states. -/
theorem inversion_stable (source : Image) (p : UserParams) (draws : ℕ → Draws) (k m : ℕ)
    (s t : Sketch) (hW : 0 < p.DestWidth) (hR : 0 < p.StrokeRatio)
    (h0 : 0 ≤ p.StrokeReduction) (h1 : p.StrokeReduction < 1) (hkm : k ≤ m)
    (hs : runUpdates (NewSketch source p) draws k = some s)
    (ht : runUpdates (NewSketch source p) draws m = some t)
    (hinv : s.strokeSize ≤ s.StrokeInversionThreshold * s.initialStrokeSize) :
    t.strokeSize ≤ t.StrokeInversionThreshold * t.initialStrokeSize ∧
      t.StrokeInversionThreshold = s.StrokeInversionThreshold ∧
      t.initialStrokeSize = s.initialStrokeSize := by
  obtain ⟨a1, -, a3, -, -, a6, -⟩ := runUpdates_fields _ draws k s hs
  obtain ⟨b1, -, b3, -, -, b6, -⟩ := runUpdates_fields _ draws m t ht
  refine ⟨?_, b6.trans a6.symm, b3.trans a3.symm⟩
  rw [b6, b3, ← a6, ← a3]
  refine le_trans ?_ hinv
  rw [a1, b1]
  have hinit : 0 < (NewSketch source p).strokeSize := by
    show 0 < p.StrokeRatio * (p.DestWidth : ℚ)
    exact mul_pos hR (by exact_mod_cast hW)
  have hq0 : 0 ≤ 1 - (NewSketch source p).StrokeReduction := by
    show 0 ≤ 1 - p.StrokeReduction
    linarith
  have hq1 : 1 - (NewSketch source p).StrokeReduction ≤ 1 := by
    show 1 - p.StrokeReduction ≤ 1
    linarith
  exact mul_le_mul_of_nonneg_left (pow_le_pow_of_le_one hq0 hq1 hkm) hinit.le

/-- Witness of C2: the default parameters, an all-black 10 by 10 source, draws all zero,
`n = 1`. -/
theorem strokeSize_nonincreasing_pos_witness :
    ∃ s t, runUpdates (NewSketch (plainImage 10 10 (0, 0, 0)) defaultParams)
        (fun _ => zeroDraws) 1 = some s ∧
      runUpdates (NewSketch (plainImage 10 10 (0, 0, 0)) defaultParams)
        (fun _ => zeroDraws) 2 = some t ∧
      0 < s.strokeSize ∧ t.strokeSize ≤ s.strokeSize := by
  have h := strokeSize_nonincreasing_pos (plainImage 10 10 (0, 0, 0)) defaultParams
    (fun _ => zeroDraws) 1 (by decide) (by norm_num [defaultParams])
    (by norm_num [defaultParams]) (by norm_num [defaultParams])
  obtain ⟨s, t, hs, ht⟩ := h.2 (by decide)
  exact ⟨s, t, hs, ht, (h.1 s hs).1, (h.1 s hs).2 t ht⟩

/-- Witness of C4: stroke reduction and inversion threshold both `1/2`, so that the condition
first holds in the state call 1 starts from; it still holds in the state call 2 starts from. -/
theorem inversion_stable_witness :
    ∃ s t,
      runUpdates (NewSketch (plainImage 10 10 (0, 0, 0))
        { defaultParams with StrokeReduction := 1 / 2, StrokeInversionThreshold := 1 / 2 })
        (fun _ => zeroDraws) 1 = some s ∧
      runUpdates (NewSketch (plainImage 10 10 (0, 0, 0))
        { defaultParams with StrokeReduction := 1 / 2, StrokeInversionThreshold := 1 / 2 })
        (fun _ => zeroDraws) 2 = some t ∧
      s.strokeSize ≤ s.StrokeInversionThreshold * s.initialStrokeSize ∧
      t.strokeSize ≤ t.StrokeInversionThreshold * t.initialStrokeSize := by
  obtain ⟨t, ht⟩ := Option.isSome_iff_exists.1
    ((runUpdates_isSome (NewSketch (plainImage 10 10 (0, 0, 0))
      { defaultParams with StrokeReduction := 1 / 2, StrokeInversionThreshold := 1 / 2 })
      (fun _ => zeroDraws) 2).2 (Or.inr (by decide)))
  obtain ⟨s, hs, -⟩ := runUpdates_succ ht
  obtain ⟨a1, -, a3, -, -, a6, -⟩ := runUpdates_fields _ _ 1 s hs
  have hinv : s.strokeSize ≤ s.StrokeInversionThreshold * s.initialStrokeSize := by
    rw [a1, a3, a6]
    norm_num [NewSketch, defaultParams]
  exact ⟨s, t, hs, ht, hinv,
    (inversion_stable _ _ _ 1 2 s t (by decide) (by norm_num [defaultParams])
      (by norm_num) (by norm_num) (by decide) hs ht hinv).1⟩

/-- C5: in a returning call of `Update` that takes the default (polygon) branch with
`MinEdgeCount ≤ MaxEdgeCount` (both Go `int`s), the first call it adds to the drawing context is
`DrawRegularPolygon` with edge count `MinEdgeCount + rand.Intn(MaxEdgeCount-MinEdgeCount+1)`,
and that count lies between `MinEdgeCount` and `MaxEdgeCount`; it is 5 when both are 5. -/
theorem edgeCount_in_range (s t : Sketch) (d : Draws)
    (hmin : isInt64 s.MinEdgeCount) (hmax : isInt64 s.MaxEdgeCount)
    (hb : polygonBranch s.toUserParams) (hle : s.MinEdgeCount ≤ s.MaxEdgeCount)
    (h : Update s d = some t) :
    ∃ edges x y rotation,
      (newCalls s t).head? = some (DrawCall.DrawRegularPolygon edges x y s.strokeSize rotation) ∧
      edges = s.MinEdgeCount + (d.edge : ℤ) % (s.MaxEdgeCount - s.MinEdgeCount + 1) ∧
      s.MinEdgeCount ≤ edges ∧ edges ≤ s.MaxEdgeCount ∧
      (s.MinEdgeCount = 5 → s.MaxEdgeCount = 5 → edges = 5) := by
  obtain ⟨shape, x, y, hshape, hcalls⟩ := Update_newCalls h
  rw [drawShape_polygon s d x y hb, Option.map_eq_some'] at hshape
  obtain ⟨k, hk, rfl⟩ := hshape
  obtain ⟨hpos, rfl⟩ := Intn_eq_some.1 hk
  have hn : wrap64 (wrap64 (s.MaxEdgeCount - s.MinEdgeCount) + 1) =
      s.MaxEdgeCount - s.MinEdgeCount + 1 := by
    unfold isInt64 at hmin hmax
    unfold wrap64 at hpos ⊢
    omega
  rw [hn] at hpos hcalls
  have hk0 := Int.emod_nonneg (d.edge : ℤ) (ne_of_gt hpos)
  have hk1 := Int.emod_lt_of_pos (d.edge : ℤ) hpos
  have hw : wrap64 (s.MinEdgeCount + (d.edge : ℤ) % (s.MaxEdgeCount - s.MinEdgeCount + 1)) =
      s.MinEdgeCount + (d.edge : ℤ) % (s.MaxEdgeCount - s.MinEdgeCount + 1) := by
    apply wrap64_of_isInt64
    unfold isInt64 at hmin hmax ⊢
    constructor <;> omega
  rw [hw] at hcalls
  refine ⟨_, x, y, d.rot * s.RotationJitter, ?_, rfl, by omega, by omega, ?_⟩
  · rw [hcalls]; rfl
  · intro h5 h5'
    rw [h5, h5'] at hk0 hk1 ⊢
    omega

/-- Witness of C5: the default parameters with both edge counts set to 5. -/
theorem edgeCount_in_range_witness :
    ∃ t edges x y rotation,
      Update (NewSketch (plainImage 10 10 (0, 0, 0))
        { defaultParams with MinEdgeCount := 5, MaxEdgeCount := 5 }) zeroDraws = some t ∧
      (newCalls (NewSketch (plainImage 10 10 (0, 0, 0))
        { defaultParams with MinEdgeCount := 5, MaxEdgeCount := 5 }) t).head? =
        some (DrawCall.DrawRegularPolygon edges x y (3 / 4 * 1920) rotation) ∧
      edges = 5 := by
  obtain ⟨t, ht⟩ := Option.isSome_iff_exists.1
    ((Update_isSome (NewSketch (plainImage 10 10 (0, 0, 0))
      { defaultParams with MinEdgeCount := 5, MaxEdgeCount := 5 }) zeroDraws).2 (by decide))
  obtain ⟨edges, x, y, rotation, hc, -, -, -, h5⟩ :=
    edgeCount_in_range _ t zeroDraws (by decide) (by decide) (by decide) (by decide) ht
  exact ⟨t, edges, x, y, rotation, ht, hc, h5 rfl rfl⟩

/-- C6 as stated fails: with a current alpha of `3/5` the fill step passes opacity `0` to
`SetRGBA255`, while `3/5` rounded to the nearest integer is `1`. -/
theorem fill_opacity_not_rounded :
    ∃ t, Update (NewSketch (plainImage 10 10 (0, 0, 0))
        { defaultParams with InitialAlpha := 3 / 5 }) zeroDraws = some t ∧
      (newCalls (NewSketch (plainImage 10 10 (0, 0, 0))
        { defaultParams with InitialAlpha := 3 / 5 }) t)[1]? =
        some (DrawCall.SetRGBA255 0 0 0 0) ∧
      round (3 / 5 : ℚ) = 1 := by
  obtain ⟨t, ht⟩ := Option.isSome_iff_exists.1
    ((Update_isSome (NewSketch (plainImage 10 10 (0, 0, 0))
      { defaultParams with InitialAlpha := 3 / 5 }) zeroDraws).2 (by decide))
  refine ⟨t, ht, ?_, ?_⟩
  · rw [(Update_fill_calls ht rfl).1, sampled_plainImage]
    have h0 : goInt (3 / 5 : ℚ) = 0 := by
      rw [goInt_of_nonneg (by norm_num) (by norm_num), Int.floor_eq_iff]
      norm_num
    show some (DrawCall.SetRGBA255 _ _ _ (goInt (3 / 5 : ℚ))) = _
    rw [h0]
    rfl
  · rw [round_eq, Int.floor_eq_iff]
    norm_num

/-- C6, amended: for a non-negative current alpha below `2^63` (the values whose integer part
a Go `int` holds), a call of `Update` with `Fill = false` passes to `SetRGBA255`, with the
sampled `r, g, b`, the current alpha truncated to an integer (its floor), then calls
`FillPreserve`. -/
theorem fill_opacity_truncated (s t : Sketch) (d : Draws) (hα : 0 ≤ s.InitialAlpha)
    (hlt : s.InitialAlpha < 2 ^ 63) (hf : s.Fill = false) (h : Update s d = some t) :
    (newCalls s t)[1]? = some (DrawCall.SetRGBA255 (sampled s d).1 (sampled s d).2.1
        (sampled s d).2.2 ⌊s.InitialAlpha⌋) ∧
      (newCalls s t)[2]? = some DrawCall.FillPreserve := by
  rw [← goInt_of_nonneg hα hlt]
  exact Update_fill_calls h hf

/-- Witness of C6, amended: a current alpha of `17/5` on a mid-grey source gives opacity `3`. -/
theorem fill_opacity_truncated_witness :
    ∃ t, Update (NewSketch (plainImage 10 10 (32896, 32896, 32896))
        { defaultParams with InitialAlpha := 17 / 5 }) zeroDraws = some t ∧
      (newCalls (NewSketch (plainImage 10 10 (32896, 32896, 32896))
        { defaultParams with InitialAlpha := 17 / 5 }) t)[1]? =
        some (DrawCall.SetRGBA255 128 128 128 3) := by
  obtain ⟨t, ht⟩ := Option.isSome_iff_exists.1
    ((Update_isSome (NewSketch (plainImage 10 10 (32896, 32896, 32896))
      { defaultParams with InitialAlpha := 17 / 5 }) zeroDraws).2 (by decide))
  refine ⟨t, ht, ?_⟩
  have h := (fill_opacity_truncated _ t zeroDraws
    (show (0 : ℚ) ≤ 17 / 5 by norm_num) (show (17 / 5 : ℚ) < 2 ^ 63 by norm_num) rfl ht).1
  rw [h, sampled_plainImage]
  have h3 : ⌊(17 / 5 : ℚ)⌋ = 3 := by
    rw [Int.floor_eq_iff]
    norm_num
  show some (DrawCall.SetRGBA255 _ _ _ ⌊(17 / 5 : ℚ)⌋) = _
  rw [h3]
  rfl

/-- C7, the code at `J = 1` and beyond: `randRange J` never returns `+J`, whatever `J` and the
draw are; for `J = 1` its two possible results are `-1` and `0`. -/
theorem randRange_never_max :
    (∀ (J : ℤ) (raw : ℕ), randRange J raw ≠ some J) ∧
      (∀ raw : ℕ, randRange 1 raw = some (-1) ∨ randRange 1 raw = some 0) ∧
      randRange 1 0 = some (-1) ∧ randRange 1 1 = some 0 := by
  refine ⟨?_, ?_, by decide, by decide⟩
  · intro J raw h
    obtain ⟨hpos, hJ⟩ := randRange_eq_some.1 h
    have hk0 := Int.emod_nonneg (raw : ℤ) (ne_of_gt hpos)
    have hk1 := Int.emod_lt_of_pos (raw : ℤ) hpos
    generalize (raw : ℤ) % wrap64 (2 * J) = k at hJ hk0 hk1
    unfold wrap64 at hpos hJ hk1
    omega
  · intro raw
    have hw : wrap64 (2 * 1) = 2 := by decide
    have hk0 := Int.emod_nonneg (raw : ℤ) (show (2 : ℤ) ≠ 0 by decide)
    have hk1 := Int.emod_lt_of_pos (raw : ℤ) (show (0 : ℤ) < 2 by decide)
    have hcase : (raw : ℤ) % 2 = 0 ∨ (raw : ℤ) % 2 = 1 := by omega
    rcases hcase with h0 | h1
    · left
      rw [randRange_eq_some, hw, h0]
      exact ⟨by decide, by decide⟩
    · right
      rw [randRange_eq_some, hw, h1]
      exact ⟨by decide, by decide⟩

/-- C8, the code at `StrokeJitter = 0`: with the default parameters and the jitter set to 0,
`Update` panics in its first call for every source image and all draws, because `randRange`
hands `2 * 0 = 0` to `rand.Intn`. -/
theorem Update_panics_without_jitter :
    (∀ (source : Image) (d : Draws),
        Update (NewSketch source { defaultParams with StrokeJitter := 0 }) d = none) ∧
      ∀ raw : ℕ, randRange 0 raw = none := by
  constructor
  · intro source d
    cases h : Update (NewSketch source { defaultParams with StrokeJitter := 0 }) d with
    | none => rfl
    | some t =>
      have hp := (Update_isSome _ d).1 (by rw [h]; rfl)
      have hj : ¬ (0 < wrap64 (2 * 0)) := by decide
      exact absurd hp.1 hj
  · intro raw
    rw [randRange_eq_none]
    decide

/-- C9 as stated fails: with `Fill = true` a call of `Update` returns without calling
`FillPreserve`. -/
theorem fill_true_does_not_fill :
    ∃ t, Update (NewSketch (plainImage 10 10 (0, 0, 0))
        { defaultParams with Fill := true }) zeroDraws = some t ∧
      (NewSketch (plainImage 10 10 (0, 0, 0)) { defaultParams with Fill := true }).Fill = true ∧
      DrawCall.FillPreserve ∉ newCalls (NewSketch (plainImage 10 10 (0, 0, 0))
        { defaultParams with Fill := true }) t := by
  obtain ⟨t, ht⟩ := Option.isSome_iff_exists.1
    ((Update_isSome (NewSketch (plainImage 10 10 (0, 0, 0))
      { defaultParams with Fill := true }) zeroDraws).2 (by decide))
  refine ⟨t, ht, rfl, ?_⟩
  rw [Update_FillPreserve_mem ht]
  decide

/-- C9, amended: the field `Fill` holds the `-nofill` flag.  A call of `Update` calls
`FillPreserve` if and only if `Fill` is false, and then it calls `SetRGBA255` with the sampled
`r, g, b` right before it; with `Fill = true` it performs no fill. -/
theorem fill_iff_Fill_false (s t : Sketch) (d : Draws) (h : Update s d = some t) :
    (DrawCall.FillPreserve ∈ newCalls s t ↔ s.Fill = false) ∧
      (s.Fill = false →
        (newCalls s t)[1]? = some (DrawCall.SetRGBA255 (sampled s d).1 (sampled s d).2.1
          (sampled s d).2.2 (goInt s.InitialAlpha)) ∧
        (newCalls s t)[2]? = some DrawCall.FillPreserve) ∧
      (s.Fill = true → DrawCall.FillPreserve ∉ newCalls s t) := by
  refine ⟨Update_FillPreserve_mem h, fun hf => Update_fill_calls h hf, ?_⟩
  intro hf hmem
  rw [Update_FillPreserve_mem h, hf] at hmem
  exact absurd hmem (by decide)

/-- Witness of C9, amended: the default parameters (`Fill = false`) fill. -/
theorem fill_iff_Fill_false_witness :
    ∃ t, Update (NewSketch (plainImage 10 10 (0, 0, 0)) defaultParams) zeroDraws = some t ∧
      DrawCall.FillPreserve ∈ newCalls (NewSketch (plainImage 10 10 (0, 0, 0)) defaultParams) t := by
  obtain ⟨t, ht⟩ := Option.isSome_iff_exists.1
    ((Update_isSome (NewSketch (plainImage 10 10 (0, 0, 0)) defaultParams) zeroDraws).2
      (by decide))
  exact ⟨t, ht, (fill_iff_Fill_false _ t zeroDraws ht).1.2 rfl⟩

/-- C10 as stated fails: in the last call (`k = 4999`) of the default run on an all-black
source, `Update` passes opacity `300` to `SetRGBA255` for the fill and `600` for the outline. -/
theorem default_run_opacity_exceeds_255 :
    ∃ s t, 4999 < totalCycleCount ∧
      runUpdates (NewSketch (plainImage 10 10 (0, 0, 0)) defaultParams)
        (fun _ => zeroDraws) 4999 = some s ∧
      Update s zeroDraws = some t ∧
      newCalls s t =
        [DrawCall.DrawRegularPolygon 3 (-200) (-200) s.strokeSize 0,
         DrawCall.SetRGBA255 0 0 0 300, DrawCall.FillPreserve,
         DrawCall.SetRGBA255 255 255 255 600, DrawCall.Stroke] := by
  obtain ⟨s, t, hs, hst, hα, hfill, hstroke, hsrc, hinv⟩ :=
    default_run_state (plainImage 10 10 (0, 0, 0)) (fun _ => zeroDraws) 4999
  refine ⟨s, t, by decide, hs, hst, ?_⟩
  obtain ⟨-, -, -, -, -, -, a7, a8, a9, a10, -⟩ := runUpdates_fields _ _ 4999 s hs
  obtain ⟨-, c2, -, c4, -, -⟩ := runUpdates_frame _ _ 4999 s hs
  have a7' : s.StrokeJitter = 200 := a7
  have a8' : s.MinEdgeCount = 3 := a8
  have a9' : s.MaxEdgeCount = 8 := a9
  have c2' : s.DestWidth = 1920 := c2
  have hb : polygonBranch s.toUserParams :=
    (polygonBranch_congr a10).2 (show polygonBranch defaultParams by decide)
  have hsam : sampled s zeroDraws = (0, 0, 0) := sampled_of_source hsrc zeroDraws
  obtain ⟨jx, jy, shape, hjx, hjy, hshape, ht⟩ := Update_eq_some hst
  have hr : randRange 200 0 = some (-200) := by decide
  rw [a7'] at hjx hjy
  have ejx : jx = -200 := Option.some.inj (hjx.symm.trans hr)
  have ejy : jy = -200 := Option.some.inj (hjy.symm.trans hr)
  have hI : Intn (wrap64 (wrap64 (8 - 3) + 1)) 0 = some 0 := by decide
  have hw : wrap64 (3 + 0) = 3 := by decide
  rw [drawShape_polygon s zeroDraws _ _ hb, a8', a9'] at hshape
  have hshape2 : shape = DrawCall.DrawRegularPolygon 3 (-200) (-200) s.strokeSize 0 := by
    have hz : zeroDraws.edge = 0 := rfl
    rw [hz, hI] at hshape
    simp only [Option.map_some', Option.some.injEq] at hshape
    rw [← hshape, hw, ejx, ejy]
    simp [zeroDraws]
  have hg1 : goInt s.InitialAlpha = 300 := by
    rw [hα, goInt_of_nonneg (by norm_num) (by norm_num), Int.floor_eq_iff]
    norm_num
  have hg2 : goInt (s.InitialAlpha * 2) = 600 := by
    rw [hα, goInt_of_nonneg (by norm_num) (by norm_num), Int.floor_eq_iff]
    norm_num
  have hfs : fillStep s 0 0 0 = [DrawCall.SetRGBA255 0 0 0 300, DrawCall.FillPreserve] := by
    simp [fillStep, hfill, hg1]
  have hss : strokeStep s 0 0 0 = [DrawCall.SetRGBA255 255 255 255 600] := by
    have h1497 : s.strokeSize ≤ s.StrokeInversionThreshold * s.initialStrokeSize :=
      hinv.2 (by norm_num)
    simp [strokeStep, hstroke, h1497, hg2]
  have hdc : t.dc = s.dc ++ [shape] ++ fillStep s 0 0 0 ++ strokeStep s 0 0 0
      ++ [DrawCall.Stroke] := by
    rw [ht, hsam]
  unfold newCalls
  rw [hdc, hfs, hss, hshape2]
  simp

/-- C10, amended: in call `k` (`k = 0 .. 4999`) of the run with the documented defaults, for
every source image and all draws, the current alpha is `0.1 + 0.06 * k`, `Update` passes
`int(alpha)` to `SetRGBA255` for the fill, and from call 1497 on (and not before) it passes
`int(alpha*2)` for the outline.  Both opacities are non-negative, `int(alpha)` is at most 300 and
`int(alpha*2)` at most 600; `int(alpha)` lies in `0 .. 255` exactly in the calls `k ≤ 4264`
and `int(alpha*2)` exactly in the calls `k ≤ 2131`. -/
theorem default_run_opacities (source : Image) (draws : ℕ → Draws) (k : ℕ)
    (hk : k < totalCycleCount) :
    ∃ s t shape,
      runUpdates (NewSketch source defaultParams) draws k = some s ∧
      Update s (draws k) = some t ∧
      s.InitialAlpha = 1 / 10 + 6 / 100 * (k : ℚ) ∧
      newCalls s t =
        [shape,
         DrawCall.SetRGBA255 (sampled s (draws k)).1 (sampled s (draws k)).2.1
           (sampled s (draws k)).2.2 (goInt s.InitialAlpha),
         DrawCall.FillPreserve] ++
        (if 1497 ≤ k then
          (if ((sampled s (draws k)).1 + (sampled s (draws k)).2.1
              + (sampled s (draws k)).2.2) / 3 < 128 then
            [DrawCall.SetRGBA255 255 255 255 (goInt (s.InitialAlpha * 2))]
          else [DrawCall.SetRGBA255 0 0 0 (goInt (s.InitialAlpha * 2))])
        else []) ++
        [DrawCall.Stroke] ∧
      (0 ≤ goInt s.InitialAlpha ∧ goInt s.InitialAlpha ≤ 300) ∧
      (goInt s.InitialAlpha ≤ 255 ↔ k ≤ 4264) ∧
      (0 ≤ goInt (s.InitialAlpha * 2) ∧ goInt (s.InitialAlpha * 2) ≤ 600) ∧
      (goInt (s.InitialAlpha * 2) ≤ 255 ↔ k ≤ 2131) := by
  obtain ⟨s, t, hs, hst, hα, hfill, hstroke, -, hinv⟩ := default_run_state source draws k
  obtain ⟨jx, jy, shape, -, -, -, ht⟩ := Update_eq_some hst
  have hb := default_opacity_bounds k hk
  rw [← hα] at hb
  refine ⟨s, t, shape, hs, hst, hα, ?_, hb⟩
  have hdc : t.dc = s.dc ++ [shape]
      ++ fillStep s (sampled s (draws k)).1 (sampled s (draws k)).2.1 (sampled s (draws k)).2.2
      ++ strokeStep s (sampled s (draws k)).1 (sampled s (draws k)).2.1
        (sampled s (draws k)).2.2
      ++ [DrawCall.Stroke] := by
    rw [ht]
  unfold newCalls
  rw [hdc]
  by_cases h1497 : 1497 ≤ k
  · simp [fillStep, strokeStep, hfill, hstroke, hinv.2 h1497, h1497]
  · have hn : ¬ s.strokeSize ≤ s.StrokeInversionThreshold * s.initialStrokeSize :=
      fun h => h1497 (hinv.1 h)
    simp [fillStep, strokeStep, hfill, hstroke, hn, h1497]

/-- Witness of C10, amended: call 2000 of the default run on an all-black source. -/
theorem default_run_opacities_witness :
    ∃ s t shape,
      runUpdates (NewSketch (plainImage 10 10 (0, 0, 0)) defaultParams)
        (fun _ => zeroDraws) 2000 = some s ∧
      Update s zeroDraws = some t ∧
      s.InitialAlpha = 1 / 10 + 6 / 100 * ((2000 : ℕ) : ℚ) ∧
      (newCalls s t).length = 5 ∧
      (newCalls s t).head? = some shape ∧
      goInt s.InitialAlpha ≤ 255 ∧ goInt (s.InitialAlpha * 2) ≤ 255 := by
  obtain ⟨s, t, shape, hs, hst, hα, hc, -, h1, -, h2⟩ :=
    default_run_opacities (plainImage 10 10 (0, 0, 0)) (fun _ => zeroDraws) 2000 (by decide)
  refine ⟨s, t, shape, hs, hst, hα, ?_, ?_, h1.2 (by decide), h2.2 (by decide)⟩
  · rw [hc]
    have h1497 : 1497 ≤ 2000 := by decide
    simp only [h1497, if_true]
    split_ifs <;> rfl
  · rw [hc]
    rfl

end Wpgen
